import Mathlib

/-!
Verification of the pircel IRC client engine: a shallow embedding of the
line codec, command dispatch, callback registry, lifecycle controller and
session model, with theorems settling the specification claims.
-/

set_option maxRecDepth 4000

deriving instance DecidableEq for Except

namespace Pircel

/-- Python exception values that the embedded code can raise. -/
inductive PyErr where
  | indexError
  | valueError
  | typeError
  | keyError
  | attributeError (name : String)
  | unicodeDecodeError
  | unknownNumericCommand (cmd : String)
deriving DecidableEq, Repr

/-- Whitespace test covering the ASCII characters stripped and split by the Python string methods used in the source. -/
def pyIsSpace (c : Char) : Bool :=
  c == ' ' || c == '\t' || c == '\n' || c == '\r' || c == '\x0b' || c == '\x0c'

/-- Splits a character list at the first occurrence of a single space, as the Python split with a space separator and maxsplit one; none models the case with no space, where tuple unpacking in the source raises ValueError. -/
def splitFirstSpace : List Char → Option (List Char × List Char)
  | [] => none
  | c :: rest =>
    if c == ' ' then some ([], rest)
    else (splitFirstSpace rest).map (fun p => (c :: p.1, p.2))

/-- Splits at the first occurrence of the two character sequence of a space then a colon, combining the find and split calls of the source. -/
def splitFirstSpColon : List Char → Option (List Char × List Char)
  | [] => none
  | [c] => if c == ' ' then none else none
  | ' ' :: ':' :: rest => some ([], rest)
  | c :: rest => (splitFirstSpColon rest).map (fun p => (c :: p.1, p.2))

/-- Accumulator loop for pyWords; the accumulator holds the current token reversed. -/
def pyWordsAux : List Char → List Char → List (List Char)
  | cur, [] => if cur.isEmpty then [] else [cur.reverse]
  | cur, c :: cs =>
    if pyIsSpace c then
      if cur.isEmpty then pyWordsAux [] cs
      else cur.reverse :: pyWordsAux [] cs
    else pyWordsAux (c :: cur) cs

/-- Python split with no separator: splits on runs of whitespace and drops empty tokens. -/
def pyWords (l : List Char) : List (List Char) := pyWordsAux [] l

/-- Python split on a single character separator, keeping empty pieces. -/
def pySplitChar (sep : Char) : List Char → List (List Char)
  | [] => [[]]
  | c :: cs =>
    if c == sep then [] :: pySplitChar sep cs
    else
      match pySplitChar sep cs with
      | [] => [[c]]
      | t :: ts => (c :: t) :: ts

/-- Python strip with no arguments: removes leading and trailing whitespace. -/
def pyStrip (l : List Char) : List Char :=
  ((l.dropWhile pyIsSpace).reverse.dropWhile pyIsSpace).reverse

/-- Tail of split_irc_line once the leading identity part has been removed: split at the first space colon pair, tokenize, append the trailing argument, then pop the command, raising IndexError from the pop when there is no token. -/
def splitArgs (pb : List Char × List Char) : Except PyErr (String × String × List String) :=
  let args :=
    match splitFirstSpColon pb.2 with
    | some p => pyWords p.1 ++ [p.2]
    | none => pyWords pb.2
  match args with
  | [] => .error .indexError
  | cmd :: more => .ok (String.mk pb.1, String.mk cmd, more.map String.mk)

/-- Embeds split_irc_line from the source: breaks a message into its leading identity part, command and arguments, with the Python exceptions made explicit. The empty line guard in the source falls through without raising, so the first index access raises IndexError. -/
def split_irc_line (s : String) : Except PyErr (String × String × List String) :=
  match s.data with
  | [] => .error .indexError
  | c :: rest =>
    if c == ':' then
      match splitFirstSpace rest with
      | some p => splitArgs p
      | none => .error .valueError
    else splitArgs ([], c :: rest)

/-- Embeds parse_identity: extracts nick, username and host from an IRC user identifier, with ValueError modelling failed tuple unpacking and the leading tilde stripped from the username. -/
def parse_identity (who : String) : Except PyErr (String × String × String) :=
  match pySplitChar '!' who.data with
  | [nickPart, rest] =>
    match pySplitChar '@' rest with
    | [usernamePart, hostPart] =>
      let usernamePart := if usernamePart.head? = some '~' then usernamePart.tail else usernamePart
      .ok (String.mk nickPart, String.mk usernamePart, String.mk hostPart)
    | _ => .error .valueError
  | _ => .error .valueError

/-- Items of the symbolic to numeric table in source order, including the repeated RPL_ADMINLOC key whose later binding wins in a Python dict. -/
def symbolic_to_numeric_items : List (String × String) :=
  [("RPL_WELCOME", "001"), ("RPL_YOURHOST", "002"), ("RPL_CREATED", "003"),
   ("RPL_MYINFO", "004"), ("RPL_ISUPPORT", "005"), ("RPL_BOUNCE", "010"),
   ("RPL_STATSCONN", "250"), ("RPL_LOCALUSERS", "265"), ("RPL_GLOBALUSERS", "266"),
   ("RPL_USERHOST", "302"), ("RPL_ISON", "303"), ("RPL_AWAY", "301"),
   ("RPL_UNAWAY", "305"), ("RPL_NOWAWAY", "306"), ("RPL_WHOISUSER", "311"),
   ("RPL_WHOISSERVER", "312"), ("RPL_WHOISOPERATOR", "313"), ("RPL_WHOISIDLE", "317"),
   ("RPL_ENDOFWHOIS", "318"), ("RPL_WHOISCHANNELS", "319"), ("RPL_WHOWASUSER", "314"),
   ("RPL_ENDOFWHOWAS", "369"), ("RPL_LISTSTART", "321"), ("RPL_LIST", "322"),
   ("RPL_LISTEND", "323"), ("RPL_UNIQOPIS", "325"), ("RPL_CHANNELMODEIS", "324"),
   ("RPL_NOTOPIC", "331"), ("RPL_TOPIC", "332"), ("RPL_INVITING", "341"),
   ("RPL_SUMMONING", "342"), ("RPL_INVITELIST", "346"), ("RPL_ENDOFINVITELIST", "347"),
   ("RPL_EXCEPTLIST", "348"), ("RPL_ENDOFEXCEPTLIST", "349"), ("RPL_VERSION", "351"),
   ("RPL_WHOREPLY", "352"), ("RPL_ENDOFWHO", "315"), ("RPL_NAMREPLY", "353"),
   ("RPL_ENDOFNAMES", "366"), ("RPL_LINKS", "364"), ("RPL_ENDOFLINKS", "365"),
   ("RPL_BANLIST", "367"), ("RPL_ENDOFBANLIST", "368"), ("RPL_INFO", "371"),
   ("RPL_ENDOFINFO", "374"), ("RPL_MOTDSTART", "375"), ("RPL_MOTD", "372"),
   ("RPL_ENDOFMOTD", "376"), ("RPL_YOUREOPER", "381"), ("RPL_REHASHING", "382"),
   ("RPL_YOURESERVICE", "383"), ("RPL_TIME", "391"), ("RPL_USERSSTART", "392"),
   ("RPL_USERS", "393"), ("RPL_ENDOFUSERS", "394"), ("RPL_NOUSERS", "395"),
   ("RPL_TRACELINK", "200"), ("RPL_TRACECONNECTING", "201"), ("RPL_TRACEHANDSHAKE", "202"),
   ("RPL_TRACEUNKNOWN", "203"), ("RPL_TRACEOPERATOR", "204"), ("RPL_TRACEUSER", "205"),
   ("RPL_TRACESERVER", "206"), ("RPL_TRACESERVICE", "207"), ("RPL_TRACENEWTYPE", "208"),
   ("RPL_TRACECLASS", "209"), ("RPL_TRACERECONNECT", "210"), ("RPL_TRACELOG", "261"),
   ("RPL_TRACEEND", "262"), ("RPL_STATSLINKINFO", "211"), ("RPL_STATSCOMMANDS", "212"),
   ("RPL_ENDOFSTATS", "219"), ("RPL_STATSUPTIME", "242"), ("RPL_STATSOLINE", "243"),
   ("RPL_UMODEIS", "221"), ("RPL_SERVLIST", "234"), ("RPL_SERVLISTEND", "235"),
   ("RPL_LUSERCLIENT", "251"), ("RPL_LUSEROP", "252"), ("RPL_LUSERUNKNOWN", "253"),
   ("RPL_LUSERCHANNELS", "254"), ("RPL_LUSERME", "255"), ("RPL_ADMINME", "256"),
   ("RPL_ADMINLOC", "257"), ("RPL_ADMINLOC", "258"), ("RPL_ADMINEMAIL", "259"),
   ("RPL_TRYAGAIN", "263"), ("ERR_NOSUCHNICK", "401"), ("ERR_NOSUCHSERVER", "402"),
   ("ERR_NOSUCHCHANNEL", "403"), ("ERR_CANNOTSENDTOCHAN", "404"), ("ERR_TOOMANYCHANNELS", "405"),
   ("ERR_WASNOSUCHNICK", "406"), ("ERR_TOOMANYTARGETS", "407"), ("ERR_NOSUCHSERVICE", "408"),
   ("ERR_NOORIGIN", "409"), ("ERR_NORECIPIENT", "411"), ("ERR_NOTEXTTOSEND", "412"),
   ("ERR_NOTOPLEVEL", "413"), ("ERR_WILDTOPLEVEL", "414"), ("ERR_BADMASK", "415"),
   ("ERR_UNKNOWNCOMMAND", "421"), ("ERR_NOMOTD", "422"), ("ERR_NOADMININFO", "423"),
   ("ERR_FILEERROR", "424"), ("ERR_NONICKNAMEGIVEN", "431"), ("ERR_ERRONEUSNICKNAME", "432"),
   ("ERR_NICKNAMEINUSE", "433"), ("ERR_NICKCOLLISION", "436"), ("ERR_UNAVAILRESOURCE", "437"),
   ("ERR_USERNOTINCHANNEL", "441"), ("ERR_NOTONCHANNEL", "442"), ("ERR_USERONCHANNEL", "443"),
   ("ERR_NOLOGIN", "444"), ("ERR_SUMMONDISABLED", "445"), ("ERR_USERSDISABLED", "446"),
   ("ERR_NOTREGISTERED", "451"), ("ERR_NEEDMOREPARAMS", "461"), ("ERR_ALREADYREGISTRED", "462"),
   ("ERR_NOPERMFORHOST", "463"), ("ERR_PASSWDMISMATCH", "464"), ("ERR_YOUREBANNEDCREEP", "465"),
   ("ERR_YOUWILLBEBANNED", "466"), ("ERR_KEYSET", "467"), ("ERR_CHANNELISFULL", "471"),
   ("ERR_UNKNOWNMODE", "472"), ("ERR_INVITEONLYCHAN", "473"), ("ERR_BANNEDFROMCHAN", "474"),
   ("ERR_BADCHANNELKEY", "475"), ("ERR_BADCHANMASK", "476"), ("ERR_NOCHANMODES", "477"),
   ("ERR_BANLISTFULL", "478"), ("ERR_NOPRIVILEGES", "481"), ("ERR_CHANOPRIVSNEEDED", "482"),
   ("ERR_CANTKILLSERVER", "483"), ("ERR_RESTRICTED", "484"), ("ERR_UNIQOPPRIVSNEEDED", "485"),
   ("ERR_NOOPERHOST", "491"), ("ERR_NOSERVICEHOST", "492"), ("ERR_UMODEUNKNOWNFLAG", "501"),
   ("ERR_USERSDONTMATCH", "502")]

/-- Python dict built from a list of pairs: a later binding of an existing key overwrites the stored value in place, otherwise the pair is appended. -/
def pyDict (l : List (String × String)) : List (String × String) :=
  l.foldl
    (fun d kv =>
      if d.any (fun p => p.1 == kv.1) then
        d.map (fun p => if p.1 == kv.1 then (p.1, kv.2) else p)
      else d ++ [kv])
    []

/-- Python dict lookup returning an optional value. -/
def pyDictGet (d : List (String × String)) (k : String) : Option String :=
  (d.find? (fun p => p.1 == k)).map (fun p => p.2)

/-- Embeds the symbolic_to_numeric dict of the source. -/
def symbolic_to_numeric : List (String × String) := pyDict symbolic_to_numeric_items

/-- Embeds numeric_to_symbolic, the dict comprehension inverting symbolic_to_numeric. -/
def numeric_to_symbolic : List (String × String) :=
  pyDict (symbolic_to_numeric.map (fun p => (p.2, p.1)))

/-- Python isdecimal restricted to ASCII digits: true when the string is nonempty and every character is a digit. -/
def pyIsDecimal (s : String) : Bool :=
  !s.data.isEmpty && s.data.all (fun c => c.isDigit)

/-- ASCII lower casing of one character, as Python lower acts on the command names in play. -/
def pyLowerChar (c : Char) : Char :=
  if 65 ≤ c.toNat && c.toNat ≤ 90 then Char.ofNat (c.toNat + 32) else c

/-- ASCII lower casing of a string. -/
def pyLower (s : String) : String := String.mk (s.data.map pyLowerChar)

/-- Embeds get_symbolic_command: numeric commands are looked up in the fixed table, raising when absent, and symbolic commands pass through. -/
def get_symbolic_command (command : String) : Except PyErr String :=
  if pyIsDecimal command then
    match pyDictGet numeric_to_symbolic command with
    | some sym => .ok sym
    | none => .error (.unknownNumericCommand command)
  else .ok command

/-- Continuation byte test for UTF8. -/
def isCont (b : Nat) : Bool := 128 ≤ b && b ≤ 191

/-- Strict UTF8 decoding of a byte list, rejecting truncated sequences, overlong encodings and surrogates as the Python utf8 codec does; none models UnicodeDecodeError. -/
def utf8Decode : List Nat → Option (List Char)
  | [] => some []
  | b :: rest =>
    if b ≤ 127 then (utf8Decode rest).map (fun cs => Char.ofNat b :: cs)
    else if 194 ≤ b && b ≤ 223 then
      match rest with
      | b2 :: rest2 =>
        if isCont b2 then
          (utf8Decode rest2).map (fun cs => Char.ofNat ((b - 192) * 64 + (b2 - 128)) :: cs)
        else none
      | [] => none
    else if 224 ≤ b && b ≤ 239 then
      match rest with
      | b2 :: b3 :: rest3 =>
        let lo2 := if b == 224 then 160 else 128
        let hi2 := if b == 237 then 159 else 191
        if lo2 ≤ b2 && b2 ≤ hi2 && isCont b3 then
          (utf8Decode rest3).map
            (fun cs => Char.ofNat ((b - 224) * 4096 + (b2 - 128) * 64 + (b3 - 128)) :: cs)
        else none
      | _ => none
    else if 240 ≤ b && b ≤ 244 then
      match rest with
      | b2 :: b3 :: b4 :: rest4 =>
        let lo2 := if b == 240 then 144 else 128
        let hi2 := if b == 244 then 143 else 191
        if lo2 ≤ b2 && b2 ≤ hi2 && isCont b3 && isCont b4 then
          (utf8Decode rest4).map
            (fun cs =>
              Char.ofNat ((b - 240) * 262144 + (b2 - 128) * 4096 + (b3 - 128) * 64 + (b4 - 128)) :: cs)
        else none
      | _ => none
    else none

/-- Python value reaching the line pipeline: raw bytes from the transport or an already decoded string as in the tests. -/
inductive PyData where
  | bytes (bs : List Nat)
  | str (s : String)
deriving DecidableEq, Repr

/-- External charset detection collaborator standing for the chardet library: a detector returning an optional encoding name and a decoder for a named encoding, with none modelling failure. -/
structure CharDet where
  detect : List Nat → Option String
  decodeWith : String → List Nat → Option String

/-- Embeds protocol.decode: utf8 is attempted first, then the chardet fallback; a TypeError raised for string input is caught and the string returned unchanged, while a failing fallback surfaces its exception exactly as in the source, where detection returning no encoding makes the str call raise TypeError inside the UnicodeDecodeError handler, uncaught. -/
def decode (cd : CharDet) (line : PyData) : Except PyErr String :=
  match line with
  | .str s => .ok s
  | .bytes bs =>
    match utf8Decode bs with
    | some cs => .ok (String.mk cs)
    | none =>
      match cd.detect bs with
      | none => .error .typeError
      | some enc =>
        match cd.decodeWith enc bs with
        | some s => .ok s
        | none => .error .unicodeDecodeError

/-- Embeds parse_line: decode, strip, then split. -/
def parse_line (cd : CharDet) (line : PyData) : Except PyErr (String × String × List String) :=
  match decode cd line with
  | .error e => .error e
  | .ok s => split_irc_line (String.mk (pyStrip s.data))

/-- Effect a user callback performs on the callback registry when invoked; this deep embedding lets the dispatch theorems quantify over callbacks that mutate the subscriber sets mid dispatch. -/
inductive CbAction where
  | nop
  | removeCb (signal : String) (cbId : Nat)
  | clearCbs (signal : String)
deriving DecidableEq, Repr

/-- One registered user callback: an identifier plus the registry effect it performs when invoked. -/
structure Cb where
  id : Nat
  act : CbAction
deriving DecidableEq, Repr

/-- Callback registry: the defaultdict of sets keyed by lower case symbolic command name, with each set kept as a duplicate free list. -/
abbrev Registry := List (String × List Cb)

/-- Lookup in the registry; a missing key yields the empty set as the defaultdict does. -/
def regGet (reg : Registry) (signal : String) : List Cb :=
  ((reg.find? (fun p => p.1 == signal)).map (fun p => p.2)).getD []

/-- Stores a subscriber set under a key, updating in place or appending. -/
def regSet (reg : Registry) (signal : String) (l : List Cb) : Registry :=
  if reg.any (fun p => p.1 == signal) then
    reg.map (fun p => if p.1 == signal then (p.1, l) else p)
  else reg ++ [(signal, l)]

/-- Embeds add_callback: adding to a Python set is idempotent. -/
def add_callback (reg : Registry) (signal : String) (cb : Cb) : Registry :=
  let l := regGet reg signal
  if l.any (fun c => c.id == cb.id) then reg else regSet reg signal (l ++ [cb])

/-- Embeds remove_callback: removing an absent element from a Python set raises KeyError. -/
def remove_callback (reg : Registry) (signal : String) (cbId : Nat) : Except PyErr Registry :=
  let l := regGet reg signal
  if l.any (fun cb => cb.id == cbId) then
    .ok (regSet reg signal (l.filter (fun cb => cb.id != cbId)))
  else .error .keyError

/-- Embeds clear_callbacks: assigns a fresh empty set. -/
def clear_callbacks (reg : Registry) (signal : String) : Registry := regSet reg signal []

/-- Applies the registry effect of one invoked callback. -/
def applyAct (reg : Registry) (a : CbAction) : Except PyErr Registry :=
  match a with
  | .nop => .ok reg
  | .removeCb s i => remove_callback reg s i
  | .clearCbs s => .ok (clear_callbacks reg s)

/-- Invokes every callback of a snapshot in order while actions mutate the live registry, recording for each invocation the callback id and the arguments it received; the engine argument of the source is the handler itself and is identical for every call. -/
def dispatchCbs (reg : Registry) (snapshot : List Cb) (pfx : String) (args : List String) :
    Except PyErr (List (Nat × String × List String) × Registry) :=
  match snapshot with
  | [] => .ok ([], reg)
  | cb :: rest =>
    match applyAct reg cb.act with
    | .error e => .error e
    | .ok reg2 =>
      match dispatchCbs reg2 rest pfx args with
      | .error e => .error e
      | .ok (log, reg3) => .ok ((cb.id, pfx, args) :: log, reg3)

/-- Embeds the user callback loop of handle_line: the source iterates over a snapshot copy of the subscriber set, built by the set constructor, so the snapshot is taken before any callback runs. -/
def publish (reg : Registry) (signal : String) (pfx : String) (args : List String) :
    Except PyErr (List (Nat × String × List String) × Registry) :=
  dispatchCbs reg (regGet reg signal) pfx args

/-- Attribute names defined on IRCServerHandler instances in the source, used to embed the getattr lookups. -/
def ircServerHandlerAttrs : List String :=
  ["_write", "identity", "motd", "callbacks",
   "handle_line", "log_unhandled", "write_function", "pong", "connect", "who", "join",
   "_split_line_channel_command", "send_message", "send_notice",
   "add_callback", "remove_callback", "clear_callbacks", "on_ping"]

/-- Identity record of the local client as used by the registration methods. -/
structure Identity where
  nick : String
  username : String
  real_name : String
deriving DecidableEq, Repr

/-- Embeds pong: the single outbound keepalive reply line. -/
def pong (value : String) : String := "PONG :" ++ value

/-- Embeds the builtin on_ping handler: writes one PONG carrying the received token; a PING line with no argument makes the call itself raise TypeError for the missing positional argument. -/
def on_ping (args : List String) : Except PyErr (List String) :=
  match args with
  | [] => .error .typeError
  | token :: _ => .ok [pong token]

/-- Result of handling one line: outbound writes from builtin handlers, the user callback invocation log, the commands logged as unhandled, and the registry after dispatch. -/
structure HandleResult where
  writes : List String
  cbLog : List (Nat × String × List String)
  unhandledLog : List String
  callbacks : Registry
deriving DecidableEq, Repr

/-- Embeds IRCServerHandler.handle_line: parse the line, normalize the command, run the builtin handler when the getattr lookup finds one, then publish to a snapshot of the user callbacks for the lower cased symbolic command. An unknown numeric command is logged and neither builtin nor user dispatch happens. The only attribute of the class matching the handler naming pattern is on_ping, so a successful lookup invokes it. -/
def handle_line (cd : CharDet) (reg : Registry) (line : PyData) : Except PyErr HandleResult :=
  match parse_line cd line with
  | .error e => .error e
  | .ok (pfx, command, args) =>
    match get_symbolic_command command with
    | .error _ => .ok ⟨[], [], [command], reg⟩
    | .ok symbolic =>
      let lower := pyLower symbolic
      let builtin : Except PyErr (List String × List String) :=
        if ircServerHandlerAttrs.contains ("on_" ++ lower) then
          match on_ping args with
          | .error e => .error e
          | .ok ws => .ok (ws, [])
        else .ok ([], [symbolic])
      match builtin with
      | .error e => .error e
      | .ok (ws, unh) =>
        match publish reg lower pfx args with
        | .error e => .error e
        | .ok (log, reg2) => .ok ⟨ws, log, unh, reg2⟩

/-- Embeds IRCServerHandler.connect: the exact outbound registration sequence. -/
def connect (identity : Identity) : List String :=
  ["NICK " ++ identity.nick,
   "USER " ++ identity.username ++ " 0 * :" ++ identity.real_name]

/-- Embeds the private helper splitting a payload on newline and emitting one command per resulting line. -/
def split_line_channel_command (command channel message : String) : List String :=
  (pySplitChar '\n' message.data).map
    (fun l => command ++ " " ++ channel ++ " :" ++ String.mk l)

/-- Embeds send_message. -/
def send_message (channel message : String) : List String :=
  split_line_channel_command ("PRIVMSG") channel message

/-- Embeds send_notice. -/
def send_notice (channel message : String) : List String :=
  split_line_channel_command ("NOTICE") channel message

/-- Embeds LineStream.write_function: appends a newline when the last character is not one; the negative index on an empty line raises IndexError. -/
def write_function (line : String) : Except PyErr String :=
  match line.data.getLast? with
  | none => .error .indexError
  | some c => if c = '\n' then .ok line else .ok (line ++ "\n")

/-- Parameter names of IRCServerHandler.add_callback in the source; the method accepts no keyword named weak. -/
def addCallbackParams : List String := ["self", "signal", "callback"]

/-- Steps the tornado adapter IRCClient.connect performs, in program order. -/
inductive ClientStep where
  | startPeriodicPing (periodMs : Nat)
  | streamConnect
  | registerAutojoin (channel : String)
deriving DecidableEq, Repr

/-- Embeds a Python keyword call of add_callback with the given keyword names: a keyword absent from the parameter list raises TypeError before the body runs. -/
def callAddCallbackKw (reg : Registry) (signal : String) (cb : Cb) (kwargs : List String) :
    Except PyErr Registry :=
  if kwargs.all (fun k => addCallbackParams.contains k) then .ok (add_callback reg signal cb)
  else .error .typeError

/-- Embeds the autojoin registration loop of IRCClient.connect: one add_callback call per channel, each passing the weak keyword as the source does. -/
def registerAutojoins (reg : Registry) (channels : List String) : Except PyErr Registry :=
  match channels with
  | [] => .ok reg
  | _ch :: rest =>
    match callAddCallbackKw reg ("rpl_welcome") ⟨0, .removeCb ("rpl_welcome") 0⟩ [("weak")] with
    | .error e => .error e
    | .ok reg2 => registerAutojoins reg2 rest

/-- Embeds IRCClient.connect from the tornado adapter: the periodic ping timer is started first with the fixed period of 60000 milliseconds, then the stream connect is issued, then the autojoin callbacks are registered. -/
def ircClientConnect (reg : Registry) (channels : List String) :
    List ClientStep × Except PyErr Registry :=
  ([ClientStep.startPeriodicPing 60000, ClientStep.streamConnect]
     ++ channels.map ClientStep.registerAutojoin,
   registerAutojoins reg channels)

/-- Embeds IRCClient._ping: the timer tick looks up the attribute send_ping on the server handler and the class defines no such attribute, so the tick raises AttributeError. -/
def ircClientPing : Except PyErr String :=
  if ircServerHandlerAttrs.contains ("send_ping") then .ok ("send_ping")
  else .error (.attributeError ("send_ping"))

/-- Modelled from the spec: pircel.model is not under src, only its tests are, so the user record of the session model of spec section 3 is embedded here: a stable internal identifier, the current nick, and the liveness flag stating whether this nick is presently claimed by this identifier. -/
structure UserRec where
  uid : Nat
  nick : String
  current : Bool
deriving DecidableEq, Repr

/-- Modelled from the spec: the session model state owned by one server session, with user records, membership rows relating user identifiers to buffer names, and the next fresh identifier. -/
structure ModelState where
  users : List UserRec
  memberships : List (Nat × String)
  nextId : Nat
deriving DecidableEq, Repr

/-- Modelled from the spec: lookup of the user record currently holding a nick. -/
def getUserByNick (st : ModelState) (n : String) : Option UserRec :=
  st.users.find? (fun u => u.current && u.nick == n)

/-- Modelled from the spec: entities are created lazily on first reference from an event, so resolving a nick either finds the current holder or creates a fresh record. -/
def resolveUser (st : ModelState) (n : String) : UserRec × ModelState :=
  match getUserByNick st n with
  | some u => (u, st)
  | none =>
    let u : UserRec := ⟨st.nextId, n, true⟩
    (u, { st with users := st.users ++ [u], nextId := st.nextId + 1 })

/-- Modelled from the spec: JOIN resolves the acting user by the nick from the identity string, creating it if unseen, and creates the membership row only when absent, so joining twice does not duplicate the row or raise. -/
def handle_join (st : ModelState) (pfx : String) (channel : String) : Except PyErr ModelState :=
  match parse_identity pfx with
  | .error e => .error e
  | .ok (nick, _, _) =>
    let r := resolveUser st nick
    if (r.1.uid, channel) ∈ r.2.memberships then .ok r.2
    else .ok { r.2 with memberships := r.2.memberships ++ [(r.1.uid, channel)] }

/-- Modelled from the spec: PART deletes the membership row when present; absence of the row is not an error. -/
def handle_part (st : ModelState) (pfx : String) (channel : String) : Except PyErr ModelState :=
  match parse_identity pfx with
  | .error e => .error e
  | .ok (nick, _, _) =>
    let r := resolveUser st nick
    .ok { r.2 with memberships := r.2.memberships.filter (fun m => m != (r.1.uid, channel)) }

/-- Modelled from the spec: whether a user identifier is presently in at least one buffer. -/
def hasLiveMembership (st : ModelState) (uid : Nat) : Bool :=
  st.memberships.any (fun m => m.1 == uid)

/-- Modelled from the spec: NICK finds the user currently holding the old nick, created lazily when unseen. When no other record currently holds the new nick the record is renamed in place, keeping its identifier and all membership rows; when another record currently holds the new nick without any live membership, that stale identifier is reused as the canonical target: membership rows are reassigned to it and the old record is marked inactive. A current holder of the new nick with a live membership is outside the behaviour the spec defines and surfaces as an error. -/
def handle_nick (st : ModelState) (pfx : String) (newNick : String) : Except PyErr ModelState :=
  match parse_identity pfx with
  | .error e => .error e
  | .ok (oldNick, _, _) =>
    let r := resolveUser st oldNick
    match r.2.users.find? (fun v => v.current && v.nick == newNick && v.uid != r.1.uid) with
    | none =>
      .ok { r.2 with
        users := r.2.users.map
          (fun w => if w.uid == r.1.uid then { w with nick := newNick } else w) }
    | some v =>
      if hasLiveMembership r.2 v.uid then .error .valueError
      else
        .ok { r.2 with
          users := r.2.users.map
            (fun w => if w.uid == r.1.uid then { w with current := false } else w),
          memberships := r.2.memberships.map
            (fun m => if m.1 == r.1.uid then (v.uid, m.2) else m) }

/-- Protocol events driving the session model, carrying the raw identity string exactly as the tests do. -/
inductive MEvent where
  | join (pfx channel : String)
  | part (pfx channel : String)
  | nick (pfx newNick : String)
deriving DecidableEq, Repr

/-- Applies one event through the matching handler. -/
def applyEvent (st : ModelState) : MEvent → Except PyErr ModelState
  | .join p c => handle_join st p c
  | .part p c => handle_part st p c
  | .nick p n => handle_nick st p n

/-- Runs a sequence of events, stopping at the first raised exception. -/
def runEvents (st : ModelState) : List MEvent → Except PyErr ModelState
  | [] => .ok st
  | e :: es =>
    match applyEvent st e with
    | .error err => .error err
    | .ok st2 => runEvents st2 es

/-- Well formed identity string: parse_identity succeeds on it. -/
def wfIdent (p : String) : Bool := (parse_identity p).toOption.isSome

/-- An event is admissible in a state when its identity string is well formed and, for a nick change, the new nick is not currently resolvable to a live membership of a different user; this is exactly the side condition of the claim. -/
def admissible (st : ModelState) : MEvent → Bool
  | .join p _ => wfIdent p
  | .part p _ => wfIdent p
  | .nick p n =>
    match parse_identity p with
    | .error _ => false
    | .ok (oldNick, _, _) =>
      let r := resolveUser st oldNick
      match r.2.users.find? (fun v => v.current && v.nick == n && v.uid != r.1.uid) with
      | none => true
      | some v => !hasLiveMembership r.2 v.uid

/-- A run is admissible when every event is admissible in the state it is applied to. -/
def admissibleRun (st : ModelState) : List MEvent → Bool
  | [] => true
  | e :: es =>
    admissible st e &&
    (match applyEvent st e with
     | .ok st2 => admissibleRun st2 es
     | .error _ => false)

/-- Convenience projections of a run as total functions. -/
def runsOk (st : ModelState) (evs : List MEvent) : Bool := (runEvents st evs).toOption.isSome

/-- State after a run, or the start state when the run raised. -/
def finalState (st : ModelState) (evs : List MEvent) : ModelState :=
  ((runEvents st evs).toOption).getD st

/-- Model invariants: distinct user identifiers all below the id counter, at most one current holder of any nick, and no duplicated membership row for the same user and buffer pair. -/
def Inv (st : ModelState) : Prop :=
  (st.users.map UserRec.uid).Nodup ∧
  (∀ u ∈ st.users, u.uid < st.nextId) ∧
  (∀ u ∈ st.users, ∀ v ∈ st.users, u.current = true → v.current = true →
     u.nick = v.nick → u = v) ∧
  st.memberships.Nodup

instance : DecidablePred Inv := fun st => by unfold Inv; infer_instance

/-- Event sequence of the multi change nick regression test. -/
def testSeq : List MEvent :=
  [.join ("n!~u@h") ("#c"), .part ("n!~u@h") ("#c"), .join ("m!~u@h") ("#c"),
   .nick ("m!~u@h") ("n"), .part ("n!~u@h") ("#c"), .join ("m!~u@h") ("#c"),
   .nick ("m!~u@h") ("n")]

/-- Fresh session model state. -/
def initState : ModelState := ⟨[], [], 0⟩

/-- Follows the words of the spec for the tail of the grammar: the remaining text splits on the first space colon pair into leading space separated tokens plus one trailing multi word argument appended to the args; the first token is the command and the rest are positional args; none when there is no token at all. -/
def specFinish (identPart body : List Char) : Option (String × String × List String) :=
  let args :=
    match splitFirstSpColon body with
    | some p => pyWords p.1 ++ [p.2]
    | none => pyWords body
  match args with
  | [] => none
  | cmd :: more => some (String.mk identPart, String.mk cmd, more.map String.mk)

/-- Follows the words of the spec for the parse grammar, written independently of the source embedding: when the line starts with a colon the identity part is the text up to the first space and the remainder follows that space, otherwise the identity part is empty; the remainder is tokenized by specFinish. Returns none where the grammar yields no result. -/
def specParse (s : String) : Option (String × String × List String) :=
  match s.data with
  | [] => none
  | c :: rest =>
    if c == ':' then
      if rest.any (fun x => x == ' ') then
        specFinish (rest.takeWhile (fun x => x != ' '))
          ((rest.dropWhile (fun x => x != ' ')).tail)
      else none
    else specFinish [] (c :: rest)

end Pircel

namespace Pircel

/-! Helper lemmas. -/

/-- Splitting at the first space agrees with the take and drop description used by the spec wording. -/
theorem splitFirstSpace_eq (l : List Char) :
    splitFirstSpace l =
      if l.any (fun x => x == ' ') then
        some (l.takeWhile (fun x => x != ' '), (l.dropWhile (fun x => x != ' ')).tail)
      else none := by
  induction l with
  | nil => rfl
  | cons c rest ih =>
    by_cases hc : c = ' '
    · subst hc
      simp [splitFirstSpace, List.takeWhile, List.dropWhile]
    · have hcb : (c == ' ') = false := by simpa using hc
      have hcb2 : (c != ' ') = true := by simp [bne, hcb]
      simp only [splitFirstSpace, List.any_cons, List.takeWhile, List.dropWhile, ih, hcb, hcb2]
      simp only [Bool.false_or]
      split <;> simp_all

/-- Projection of splitArgs onto options agrees with the spec side tail. -/
theorem splitArgs_toOption (pb : List Char × List Char) :
    (splitArgs pb).toOption = specFinish pb.1 pb.2 := by
  unfold splitArgs specFinish
  rcases h : splitFirstSpColon pb.2 with _ | p
  · simp only [h]
    rcases h2 : pyWords pb.2 with _ | ⟨a, l⟩ <;> simp [h2, Except.toOption]
  · simp only [h]
    rcases h2 : pyWords p.1 with _ | ⟨a, l⟩ <;> simp [h2, Except.toOption]

/-- Charset detector whose detection always fails, a concrete collaborator instance for witnesses. -/
def cdNone : CharDet := ⟨fun _ => none, fun _ _ => none⟩

/-- Whitespace only lists strip to the empty list. -/
theorem pyStrip_all_space (l : List Char) (h : l.all pyIsSpace = true) : pyStrip l = [] := by
  unfold pyStrip
  have h1 : l.dropWhile pyIsSpace = [] :=
    List.dropWhile_eq_nil_iff.mpr (by simpa [List.all_eq_true] using h)
  simp [h1]

/-- C2: the parser realizes exactly the grammar the spec states, amended to the lines on which the grammar yields a result: the option projection of the source parser coincides with the spec side grammar function on every string, and the documented example parses as stated. The original universally quantified phrasing fails on the empty line, see the counterexample. -/
theorem c2_parse_grammar :
    (∀ s : String, (split_irc_line s).toOption = specParse s)
    ∧ split_irc_line (":nick!user@host PRIVMSG #chan :hello there") =
        .ok (("nick!user@host"), ("PRIVMSG"), [("#chan"), ("hello there")]) := by
  constructor
  · intro s
    unfold split_irc_line specParse
    rcases hs : s.data with _ | ⟨c, rest⟩
    · rfl
    · by_cases hc : c = ':'
      · subst hc
        dsimp only
        rw [splitFirstSpace_eq]
        by_cases ha : rest.any (fun x => x == ' ') = true
        · simp [ha, splitArgs_toOption]
        · simp [Bool.not_eq_true] at ha
          simp [ha, Except.toOption]
      · have hcb : (c == ':') = false := by simpa using hc
        dsimp only
        simp [hcb, splitArgs_toOption]
  · decide

/-- C2 counterexample: parsing is not defined for every line of text; the empty line raises IndexError instead of yielding a triple. -/
theorem c2_counterexample : split_irc_line ("") = .error .indexError := by decide

/-- C3: numeric normalization maps 001 to RPL_WELCOME through the fixed table, raises UnknownNumericCommand exactly when a numeric is absent from the table, and handling a line whose numeric command is unmapped logs the command and performs neither the builtin handler dispatch nor any user callback dispatch. -/
theorem c3_unknown_numeric :
    get_symbolic_command ("001") = .ok ("RPL_WELCOME")
    ∧ (∀ c : String, pyIsDecimal c = true → pyDictGet numeric_to_symbolic c = none →
        get_symbolic_command c = .error (.unknownNumericCommand c))
    ∧ (∀ c sym : String, pyIsDecimal c = true → pyDictGet numeric_to_symbolic c = some sym →
        get_symbolic_command c = .ok sym)
    ∧ (∀ (cd : CharDet) (reg : Registry) (line : PyData) (pfx cmd : String) (args : List String),
        parse_line cd line = .ok (pfx, cmd, args) →
        get_symbolic_command cmd = .error (.unknownNumericCommand cmd) →
        handle_line cd reg line = .ok ⟨[], [], [cmd], reg⟩) := by
  refine ⟨by decide, ?_, ?_, ?_⟩
  · intro c hdec hget
    unfold get_symbolic_command
    simp [hdec, hget]
  · intro c sym hdec hget
    unfold get_symbolic_command
    simp [hdec, hget]
  · intro cd reg line pfx cmd args hparse hsym
    unfold handle_line
    rw [hparse]
    dsimp only
    rw [hsym]

/-- C3 witness: the unmapped numeric 999 raises, the mapped numeric 005 resolves, and handling a 999 line dispatches nothing. -/
theorem c3_witness :
    get_symbolic_command ("999") = .error (.unknownNumericCommand ("999"))
    ∧ get_symbolic_command ("005") = .ok ("RPL_ISUPPORT")
    ∧ handle_line cdNone [] (.str ("999 foo")) = .ok ⟨[], [], [("999")], []⟩ :=
  ⟨c3_unknown_numeric.2.1 ("999") (by decide) (by decide),
   c3_unknown_numeric.2.2.1 ("005") ("RPL_ISUPPORT") (by decide) (by decide),
   c3_unknown_numeric.2.2.2 cdNone [] (.str ("999 foo")) ("") ("999") [("foo")]
     (by decide) (by decide)⟩

/-- C6: for the identity with nick, username and real name all set to test, connect writes exactly the NICK line then the USER line, in that order, and nothing else. -/
theorem c6_connect_sequence :
    connect ⟨("test"), ("test"), ("test")⟩ = [("NICK test"), ("USER test 0 * :test")] := by
  decide

/-- C10: line parsing is not total: the empty line makes split_irc_line raise IndexError from indexing the first character, because the empty line guard falls through without raising or returning, and any whitespace only line, which parse_line strips to the empty string, raises the same way. -/
theorem c10_empty_line_raises :
    split_irc_line ("") = .error .indexError
    ∧ (∀ (cd : CharDet) (s : String), s.data.all pyIsSpace = true →
        parse_line cd (.str s) = .error .indexError) := by
  constructor
  · decide
  · intro cd s hs
    unfold parse_line decode
    dsimp only
    rw [pyStrip_all_space s.data hs]
    rfl

/-- C10 witness: a single space line evaluates to the IndexError the theorem states. -/
theorem c10_witness :
    ((" ") : String).data.all pyIsSpace = true
    ∧ parse_line cdNone (.str (" ")) = .error .indexError :=
  ⟨by decide, c10_empty_line_raises.2 cdNone (" ") (by decide)⟩

/-- Invocation log of a successful dispatch equals the snapshot mapped to identical argument tuples, whatever registry mutations the invoked callbacks perform. -/
theorem dispatchCbs_log (snapshot : List Cb) :
    ∀ (reg : Registry) (pfx : String) (args : List String)
      (log : List (Nat × String × List String)) (reg2 : Registry),
      dispatchCbs reg snapshot pfx args = .ok (log, reg2) →
      log = snapshot.map (fun cb => (cb.id, pfx, args)) := by
  induction snapshot with
  | nil =>
    intro reg pfx args log reg2 h
    unfold dispatchCbs at h
    injection h with h
    exact (congrArg Prod.fst h.symm).trans rfl
  | cons cb rest ih =>
    intro reg pfx args log reg2 h
    unfold dispatchCbs at h
    cases ha : applyAct reg cb.act with
    | error e => rw [ha] at h; cases h
    | ok reg3 =>
      rw [ha] at h
      dsimp only at h
      cases hd : dispatchCbs reg3 rest pfx args with
      | error e => rw [hd] at h; cases h
      | ok p =>
        rw [hd] at h
        obtain ⟨log2, reg4⟩ := p
        injection h with h
        injection h with h1 h2
        subst h1
        have := ih reg3 pfx args log2 reg4 hd
        simp [this]

/-- C4: every callback subscribed at the start of dispatch is invoked exactly once with identical arguments: the invocation log of a successful publish is exactly the snapshot taken at the start, paired with the same argument tuple, so a callback unsubscribing itself or another mid dispatch neither skips nor duplicates delivery to any other callback; with distinct identifiers each subscriber appears exactly once in the log. -/
theorem c4_publish_snapshot :
    ∀ (reg : Registry) (signal pfx : String) (args : List String)
      (log : List (Nat × String × List String)) (reg2 : Registry),
      publish reg signal pfx args = .ok (log, reg2) →
      log = (regGet reg signal).map (fun cb => (cb.id, pfx, args))
      ∧ (((regGet reg signal).map Cb.id).Nodup →
          ∀ cb ∈ regGet reg signal, (log.map (fun e => e.1)).count cb.id = 1) := by
  intro reg signal pfx args log reg2 h
  have hlog := dispatchCbs_log (regGet reg signal) reg pfx args log reg2 h
  refine ⟨hlog, ?_⟩
  intro hnd cb hmem
  subst hlog
  have hcomp :
      (((regGet reg signal).map (fun cb => (cb.id, pfx, args))).map (fun e => e.1))
        = (regGet reg signal).map Cb.id := by
    rw [List.map_map]; rfl
  rw [hcomp]
  exact List.count_eq_one_of_mem hnd (List.mem_map_of_mem Cb.id hmem)

/-- Registry with two subscribers on one event, the first of which unsubscribes the second when invoked. -/
def regTwo : Registry := [(("x"), [⟨1, .removeCb ("x") 2⟩, ⟨2, .nop⟩])]

/-- C4 witness: with the first subscriber unsubscribing the second mid dispatch, both are still invoked exactly once with the same arguments. -/
theorem c4_witness :
    publish regTwo ("x") ("p") [("a")] =
      .ok ([(1, ("p"), [("a")]), (2, ("p"), [("a")])], [(("x"), [⟨1, .removeCb ("x") 2⟩])])
    ∧ [(1, ("p"), [("a")]), (2, ("p"), [("a")])] =
        (regGet regTwo ("x")).map (fun cb => (cb.id, ("p"), [("a")])) :=
  ⟨by decide,
   (c4_publish_snapshot regTwo ("x") ("p") [("a")]
      [(1, ("p"), [("a")]), (2, ("p"), [("a")])] [(("x"), [⟨1, .removeCb ("x") 2⟩])]
      (by decide)).1⟩

/-- C5: a builtin on_ping handler always exists among the handler attributes, every successfully handled PING line writes exactly the one outbound PONG carrying the token of the PING, and the concrete PING line from the test on a fresh handler produces exactly the single outbound PONG line. -/
theorem c5_ping_pong :
    ircServerHandlerAttrs.contains ("on_ping") = true
    ∧ (∀ (cd : CharDet) (reg : Registry) (line : PyData) (pfx token : String)
         (rest : List String) (r : HandleResult),
        parse_line cd line = .ok (pfx, ("PING"), token :: rest) →
        handle_line cd reg line = .ok r →
        r.writes = [pong token])
    ∧ (∀ cd : CharDet,
        handle_line cd [] (.str ("PING :stuff")) = .ok ⟨[("PONG :stuff")], [], [], []⟩) := by
  refine ⟨by decide, ?_, ?_⟩
  · intro cd reg line pfx token rest r hparse hl
    unfold handle_line at hl
    rw [hparse] at hl
    have hl2 :
        (match publish reg ("ping") pfx (token :: rest) with
          | .error e => (.error e : Except PyErr HandleResult)
          | .ok (log, reg2) => .ok ⟨[pong token], log, [], reg2⟩) = .ok r := hl
    cases hp : publish reg ("ping") pfx (token :: rest) with
    | error e => rw [hp] at hl2; cases hl2
    | ok p =>
      rw [hp] at hl2
      obtain ⟨log, reg2⟩ := p
      injection hl2 with hl2
      rw [← hl2]
  · intro cd
    rfl

/-- C5 witness: a PING line with token tok parses as stated and the handler output is exactly the one PONG line the theorem asserts. -/
theorem c5_witness :
    parse_line cdNone (.str ("PING :tok")) = .ok (("")  , ("PING"), [("tok")])
    ∧ (⟨[("PONG :tok")], [], [], []⟩ : HandleResult).writes = [pong ("tok")] :=
  ⟨by decide,
   c5_ping_pong.2.1 cdNone [] (.str ("PING :tok")) ("") ("tok") []
     ⟨[("PONG :tok")], [], [], []⟩ (by decide) (by decide)⟩

/-- C7: decode attempts utf8 first and falls back to charset detection as the claim states; but when both fail no DecodeError is signalled and no caller logs and discards the line: the TypeError or UnicodeDecodeError escapes decode and propagates out of handle_line unchanged. -/
theorem c7_decode_fallback :
    (∀ (cd : CharDet) (bs : List Nat) (cs : List Char), utf8Decode bs = some cs →
        decode cd (.bytes bs) = .ok (String.mk cs))
    ∧ (∀ (cd : CharDet) (bs : List Nat) (enc s : String), utf8Decode bs = none →
        cd.detect bs = some enc → cd.decodeWith enc bs = some s →
        decode cd (.bytes bs) = .ok s)
    ∧ (∀ (cd : CharDet) (bs : List Nat), utf8Decode bs = none → cd.detect bs = none →
        decode cd (.bytes bs) = .error .typeError)
    ∧ (∀ (cd : CharDet) (bs : List Nat) (enc : String), utf8Decode bs = none →
        cd.detect bs = some enc → cd.decodeWith enc bs = none →
        decode cd (.bytes bs) = .error .unicodeDecodeError)
    ∧ (∀ (cd : CharDet) (reg : Registry) (bs : List Nat) (e : PyErr),
        decode cd (.bytes bs) = .error e → handle_line cd reg (.bytes bs) = .error e) := by
  refine ⟨?_, ?_, ?_, ?_, ?_⟩
  · intro cd bs cs h
    unfold decode
    dsimp only
    rw [h]
  · intro cd bs enc s h1 h2 h3
    unfold decode
    dsimp only
    rw [h1, h2]
    dsimp only
    rw [h3]
  · intro cd bs h1 h2
    unfold decode
    dsimp only
    rw [h1, h2]
  · intro cd bs enc h1 h2 h3
    unfold decode
    dsimp only
    rw [h1, h2]
    dsimp only
    rw [h3]
  · intro cd reg bs e hdec
    unfold handle_line parse_line
    rw [hdec]

/-- C7 counterexample: on the byte 255 with failing detection, handle_line itself raises TypeError, so the claim that a DecodeError is signalled and the caller merely logs and discards the line is false on the code. -/
theorem c7_counterexample :
    handle_line cdNone [] (.bytes [255]) = .error .typeError := by decide

/-- C7 witness: a plain ascii byte decodes through the utf8 path and the byte 255 with failing detection surfaces the TypeError. -/
theorem c7_witness :
    (utf8Decode [104] = some [('h')]
      ∧ decode cdNone (.bytes [104]) = .ok (String.mk [('h')]))
    ∧ (utf8Decode [255] = none ∧ cdNone.detect [255] = none
      ∧ decode cdNone (.bytes [255]) = .error .typeError) :=
  ⟨⟨by decide, c7_decode_fallback.1 cdNone [104] [('h')] (by decide)⟩,
   ⟨by decide, rfl, c7_decode_fallback.2.2.1 cdNone [255] (by decide) rfl⟩⟩

/-- C8: the code contradicts the claim: the keepalive timer is started inside connect rather than upon RPL_WELCOME, its tick looks up send_ping which IRCServerHandler never defines, raising AttributeError, and the autojoin registration calls add_callback with a weak keyword it does not accept, raising TypeError before any subscription is recorded, so no autojoin subscription can ever fire. -/
theorem c8_keepalive_autojoin_bug :
    (ircClientConnect [] [("#mhntest")]).1.head? = some (ClientStep.startPeriodicPing 60000)
    ∧ ircServerHandlerAttrs.contains ("send_ping") = false
    ∧ ircClientPing = .error (.attributeError ("send_ping"))
    ∧ addCallbackParams.contains ("weak") = false
    ∧ (ircClientConnect [] [("#mhntest")]).2 = .error .typeError
    ∧ (∀ (reg : Registry) (ch : String) (chans : List String),
        (ircClientConnect reg (ch :: chans)).2 = .error .typeError) := by
  refine ⟨by decide, by decide, by decide, by decide, by decide, ?_⟩
  intro reg ch chans
  rfl

/-- Membership in getLast? gives membership in the list. -/
theorem mem_of_getLast?_eq_some {α : Type} {l : List α} {c : α}
    (h : l.getLast? = some c) : c ∈ l := by
  rcases List.mem_getLast?_eq_getLast (Option.mem_def.mpr h) with ⟨hne, hc⟩
  exact hc ▸ List.getLast_mem hne

/-- Lines written through write_function gain exactly one trailing newline when they are nonempty and newline free. -/
theorem write_function_no_nl (l : String) (hne : l.data ≠ []) (hnl : ('\n') ∉ l.data) :
    write_function l = .ok (l ++ ("\n")) := by
  unfold write_function
  cases hl : l.data.getLast? with
  | none => exact absurd (List.getLast?_eq_none_iff.mp hl) hne
  | some c =>
    have hcm : c ∈ l.data := mem_of_getLast?_eq_some hl
    have hcne : ¬ c = '\n' := fun h => hnl (h ▸ hcm)
    dsimp only
    rw [if_neg hcne]

/-- Pieces produced by splitting on a separator never contain the separator. -/
theorem pySplitChar_not_mem (sep : Char) (l : List Char) :
    ∀ p ∈ pySplitChar sep l, sep ∉ p := by
  induction l with
  | nil =>
    intro p hp
    unfold pySplitChar at hp
    simp at hp
    simp [hp]
  | cons c cs ih =>
    intro p hp
    unfold pySplitChar at hp
    by_cases hc : (c == sep) = true
    · rw [if_pos hc] at hp
      rcases List.mem_cons.mp hp with h | h
      · simp [h]
      · exact ih p h
    · rw [if_neg hc] at hp
      have hcne : sep ≠ c := fun h => hc (by simp [h])
      cases hsp : pySplitChar sep cs with
      | nil => rw [hsp] at hp; simp at hp; simp [hp, hcne]
      | cons t ts =>
        rw [hsp] at hp
        rcases List.mem_cons.mp hp with h | h
        · subst h
          have ht : sep ∉ t := ih t (hsp ▸ List.mem_cons_self t ts)
          simp [List.mem_cons, hcne, ht]
        · exact ih p (hsp ▸ List.mem_cons_of_mem t h)

/-- Frames built by the split helper contain no newline and get exactly one trailing newline from write_function, provided the command word and the channel are nonempty and newline free. -/
theorem slcc_frames (command channel message : String)
    (hcmd : ('\n') ∉ command.data) (hcmdne : command.data ≠ [])
    (hch : ('\n') ∉ channel.data) :
    ∀ f ∈ split_line_channel_command command channel message,
      ('\n') ∉ f.data ∧ write_function f = .ok (f ++ ("\n")) := by
  intro f hf
  unfold split_line_channel_command at hf
  rcases List.mem_map.mp hf with ⟨piece, hpiece, rfl⟩
  have hpn : ('\n') ∉ piece := pySplitChar_not_mem '\n' message.data piece hpiece
  have hdata :
      (command ++ (" ") ++ channel ++ (" :") ++ String.mk piece).data
        = command.data ++ ([' ']) ++ channel.data ++ ([' '], [':']).1 ++ [':'] ++ piece := by
    simp [String.data_append]
  have hnl : ('\n') ∉ (command ++ (" ") ++ channel ++ (" :") ++ String.mk piece).data := by
    simp only [String.data_append]
    intro hmem
    rcases List.mem_append.mp hmem with hmem | hmem
    · rcases List.mem_append.mp hmem with hmem | hmem
      · rcases List.mem_append.mp hmem with hmem | hmem
        · rcases List.mem_append.mp hmem with hmem | hmem
          · exact hcmd hmem
          · simp at hmem
        · exact hch hmem
      · simp at hmem
    · exact hpn hmem
  refine ⟨hnl, ?_⟩
  apply write_function_no_nl
  · simp only [String.data_append]
    intro hemp
    rcases List.append_eq_nil.mp ((List.append_eq_nil.mp
      ((List.append_eq_nil.mp ((List.append_eq_nil.mp hemp).1)).1)).1) with ⟨h1, _⟩
    exact hcmdne h1
  · exact hnl

/-- C9: every payload given to send_message or send_notice is split on newline with one command frame per resulting line, so no wire frame embeds a literal newline when the channel name itself has none; and write_function terminates every nonempty outgoing line with a single trailing newline exactly when one is not already present. -/
theorem c9_split_and_newline :
    (∀ channel message : String, ('\n') ∉ channel.data →
        ∀ f ∈ send_message channel message,
          ('\n') ∉ f.data ∧ write_function f = .ok (f ++ ("\n")))
    ∧ (∀ channel message : String, ('\n') ∉ channel.data →
        ∀ f ∈ send_notice channel message,
          ('\n') ∉ f.data ∧ write_function f = .ok (f ++ ("\n")))
    ∧ (∀ l : String, l.data ≠ [] → l.data.getLast? ≠ some ('\n') →
        write_function l = .ok (l ++ ("\n")))
    ∧ (∀ l : String, l.data.getLast? = some ('\n') → write_function l = .ok l) := by
  refine ⟨?_, ?_, ?_, ?_⟩
  · intro channel message hch
    exact slcc_frames ("PRIVMSG") channel message (by decide) (by decide) hch
  · intro channel message hch
    exact slcc_frames ("NOTICE") channel message (by decide) (by decide) hch
  · intro l hne hlast
    unfold write_function
    cases hl : l.data.getLast? with
    | none => exact absurd (List.getLast?_eq_none_iff.mp hl) hne
    | some c =>
      have hcne : ¬ c = '\n' := fun h => hlast (h ▸ hl)
      dsimp only
      rw [if_neg hcne]
  · intro l hlast
    unfold write_function
    rw [hlast]
    simp

/-- Characterization of resolveUser: either the nick resolves and the state is unchanged, or a fresh record is appended. -/
theorem resolveUser_spec (st : ModelState) (n : String) :
    (getUserByNick st n = some (resolveUser st n).1 ∧ (resolveUser st n).2 = st)
    ∨ (getUserByNick st n = none
       ∧ (resolveUser st n).1 = ⟨st.nextId, n, true⟩
       ∧ (resolveUser st n).2 =
           { st with users := st.users ++ [⟨st.nextId, n, true⟩], nextId := st.nextId + 1 }) := by
  unfold resolveUser
  cases h : getUserByNick st n with
  | some u => left; exact ⟨rfl, rfl⟩
  | none => right; exact ⟨rfl, rfl, rfl⟩

/-- Resolving a user never touches the membership rows. -/
theorem resolveUser_mems (st : ModelState) (n : String) :
    (resolveUser st n).2.memberships = st.memberships := by
  rcases resolveUser_spec st n with ⟨_, h2⟩ | ⟨_, _, h2⟩ <;> rw [h2]

/-- Resolved record is current and carries the requested nick. -/
theorem resolveUser_fst (st : ModelState) (n : String) :
    (resolveUser st n).1.current = true ∧ (resolveUser st n).1.nick = n := by
  rcases resolveUser_spec st n with ⟨h1, _⟩ | ⟨_, h1, _⟩
  · have := List.find?_some h1
    simp only [Bool.and_eq_true, beq_iff_eq] at this
    exact ⟨this.1, this.2⟩
  · rw [h1]; exact ⟨rfl, rfl⟩

/-- Resolved record belongs to the resulting user list. -/
theorem resolveUser_fst_mem (st : ModelState) (n : String) :
    (resolveUser st n).1 ∈ (resolveUser st n).2.users := by
  rcases resolveUser_spec st n with ⟨h1, h2⟩ | ⟨_, h1, h2⟩
  · rw [h2]; exact List.mem_of_find?_eq_some h1
  · rw [h1, h2]; exact List.mem_append.mpr (Or.inr (List.mem_cons_self _ _))

/-- Old records survive resolution. -/
theorem resolveUser_users_sub (st : ModelState) (n : String) :
    ∀ u ∈ st.users, u ∈ (resolveUser st n).2.users := by
  intro u hu
  rcases resolveUser_spec st n with ⟨_, h2⟩ | ⟨_, _, h2⟩
  · rw [h2]; exact hu
  · rw [h2]; exact List.mem_append.mpr (Or.inl hu)

/-- Resolving preserves the model invariants. -/
theorem resolveUser_inv (st : ModelState) (n : String) (h : Inv st) :
    Inv (resolveUser st n).2 := by
  rcases resolveUser_spec st n with ⟨_, h2⟩ | ⟨hnone, _, h2⟩
  · rw [h2]; exact h
  · rw [h2]
    obtain ⟨hnodup, hlt, huniq, hmem⟩ := h
    have hfresh : st.nextId ∉ st.users.map UserRec.uid := by
      intro hmem2
      rcases List.mem_map.mp hmem2 with ⟨u, hu, hu2⟩
      exact absurd (hu2 ▸ hlt u hu) (Nat.lt_irrefl _)
    have hnoholder := List.find?_eq_none.mp hnone
    refine ⟨?_, ?_, ?_, hmem⟩
    · simp only [List.map_append, List.map_cons, List.map_nil]
      rw [List.nodup_append]
      exact ⟨hnodup, List.nodup_singleton _, List.disjoint_singleton.mpr hfresh⟩
    · intro u hu
      rcases List.mem_append.mp hu with hu | hu
      · exact Nat.lt_succ_of_lt (hlt u hu)
      · simp at hu; subst hu; exact Nat.lt_succ_self _
    · intro u hu v hv hcu hcv hnick
      rcases List.mem_append.mp hu with hu | hu <;> rcases List.mem_append.mp hv with hv | hv
      · exact huniq u hu v hv hcu hcv hnick
      · simp at hv
        subst hv
        exact absurd (by simp [hcu, hnick]) (hnoholder u hu)
      · simp at hu
        subst hu
        exact absurd (by simp [hcv, hnick.symm]) (hnoholder v hv)
      · simp at hu hv
        rw [hu, hv]

/-- JOIN never raises on a well formed identity and preserves the invariants; in particular the membership row is only added when absent. -/
theorem handle_join_spec (st : ModelState) (p c nick un hst : String)
    (hp : parse_identity p = .ok (nick, un, hst)) (hinv : Inv st) :
    ∃ st2, handle_join st p c = .ok st2 ∧ Inv st2 := by
  unfold handle_join
  rw [hp]
  dsimp only
  have hinv2 : Inv (resolveUser st nick).2 := resolveUser_inv st nick hinv
  by_cases hm : ((resolveUser st nick).1.uid, c) ∈ (resolveUser st nick).2.memberships
  · rw [if_pos hm]
    exact ⟨_, rfl, hinv2⟩
  · rw [if_neg hm]
    refine ⟨_, rfl, ?_⟩
    obtain ⟨h1, h2, h3, h4⟩ := hinv2
    refine ⟨h1, h2, h3, ?_⟩
    rw [List.nodup_append]
    exact ⟨h4, List.nodup_singleton _, List.disjoint_singleton.mpr hm⟩

/-- PART never raises on a well formed identity and preserves the invariants; deleting the row is a filter, harmless when the row is absent. -/
theorem handle_part_spec (st : ModelState) (p c nick un hst : String)
    (hp : parse_identity p = .ok (nick, un, hst)) (hinv : Inv st) :
    ∃ st2, handle_part st p c = .ok st2 ∧ Inv st2 := by
  unfold handle_part
  rw [hp]
  dsimp only
  refine ⟨_, rfl, ?_⟩
  obtain ⟨h1, h2, h3, h4⟩ := resolveUser_inv st nick hinv
  exact ⟨h1, h2, h3, (List.filter_sublist _).nodup h4⟩

/-- Renaming one user in place preserves the user list invariants when no other current record holds the new nick. -/
theorem rename_inv (us us2 : List UserRec) (nextId uid0 : Nat) (nn : String)
    (hdef : us2 = us.map (fun w => if w.uid == uid0 then { w with nick := nn } else w))
    (hnodup : (us.map UserRec.uid).Nodup)
    (hlt : ∀ u ∈ us, u.uid < nextId)
    (huniq : ∀ u ∈ us, ∀ v ∈ us, u.current = true → v.current = true → u.nick = v.nick → u = v)
    (hnone : ∀ v ∈ us, ¬(v.current && v.nick == nn && v.uid != uid0) = true) :
    (us2.map UserRec.uid).Nodup ∧ (∀ u ∈ us2, u.uid < nextId) ∧
    (∀ u ∈ us2, ∀ v ∈ us2, u.current = true → v.current = true → u.nick = v.nick → u = v) := by
  subst hdef
  have huid : ∀ w : UserRec,
      (if w.uid == uid0 then { w with nick := nn } else w).uid = w.uid := by
    intro w; by_cases h : (w.uid == uid0) = true <;> simp [h]
  have hcur : ∀ w : UserRec,
      (if w.uid == uid0 then { w with nick := nn } else w).current = w.current := by
    intro w; by_cases h : (w.uid == uid0) = true <;> simp [h]
  have hmapuid :
      ((us.map (fun w => if w.uid == uid0 then { w with nick := nn } else w)).map UserRec.uid)
        = us.map UserRec.uid := by
    rw [List.map_map]
    exact List.map_congr_left (fun a _ => huid a)
  refine ⟨by rw [hmapuid]; exact hnodup, ?_, ?_⟩
  · intro u hu
    rcases List.mem_map.mp hu with ⟨a, ha, rfl⟩
    rw [huid a]
    exact hlt a ha
  · intro x hx y hy hcx hcy hn
    rcases List.mem_map.mp hx with ⟨a, ha, rfl⟩
    rcases List.mem_map.mp hy with ⟨b, hb, rfl⟩
    rw [hcur a] at hcx
    rw [hcur b] at hcy
    by_cases h1 : (a.uid == uid0) = true <;> by_cases h2 : (b.uid == uid0) = true
    · have hab : a = b := by
        apply List.inj_on_of_nodup_map hnodup ha hb
        rw [beq_iff_eq] at h1 h2
        rw [h1, h2]
      rw [hab]
    · exfalso
      rw [if_pos h1, if_neg h2] at hn
      dsimp only at hn
      apply hnone b hb
      have hb2 : (b.uid != uid0) = true := by
        simp only [bne_iff_ne]
        intro he
        exact h2 (by simp [he])
      simp [hcy, hn.symm, hb2]
    · exfalso
      rw [if_neg h1, if_pos h2] at hn
      dsimp only at hn
      apply hnone a ha
      have ha2 : (a.uid != uid0) = true := by
        simp only [bne_iff_ne]
        intro he
        exact h1 (by simp [he])
      simp [hcx, hn, ha2]
    · rw [if_neg h1, if_neg h2] at hn ⊢
      exact huniq a ha b hb hcx hcy hn

/-- Deactivating one user record preserves the user list invariants. -/
theorem deactivate_inv (us us2 : List UserRec) (nextId uid0 : Nat)
    (hdef : us2 = us.map (fun w => if w.uid == uid0 then { w with current := false } else w))
    (hnodup : (us.map UserRec.uid).Nodup)
    (hlt : ∀ u ∈ us, u.uid < nextId)
    (huniq : ∀ u ∈ us, ∀ v ∈ us, u.current = true → v.current = true → u.nick = v.nick → u = v) :
    (us2.map UserRec.uid).Nodup ∧ (∀ u ∈ us2, u.uid < nextId) ∧
    (∀ u ∈ us2, ∀ v ∈ us2, u.current = true → v.current = true → u.nick = v.nick → u = v) := by
  subst hdef
  have huid : ∀ w : UserRec,
      (if w.uid == uid0 then { w with current := false } else w).uid = w.uid := by
    intro w; by_cases h : (w.uid == uid0) = true <;> simp [h]
  have hmapuid :
      ((us.map (fun w => if w.uid == uid0 then { w with current := false } else w)).map UserRec.uid)
        = us.map UserRec.uid := by
    rw [List.map_map]
    exact List.map_congr_left (fun a _ => huid a)
  refine ⟨by rw [hmapuid]; exact hnodup, ?_, ?_⟩
  · intro u hu
    rcases List.mem_map.mp hu with ⟨a, ha, rfl⟩
    rw [huid a]
    exact hlt a ha
  · intro x hx y hy hcx hcy hn
    rcases List.mem_map.mp hx with ⟨a, ha, rfl⟩
    rcases List.mem_map.mp hy with ⟨b, hb, rfl⟩
    by_cases h1 : (a.uid == uid0) = true
    · simp [h1] at hcx
    · by_cases h2 : (b.uid == uid0) = true
      · simp [h2] at hcy
      · simp only [h1, h2, if_false] at hcx hcy hn ⊢
        exact huniq a ha b hb hcx hcy hn

/-- Reassigning the membership rows of one user onto an identifier that has no row preserves freedom from duplicates. -/
theorem reassign_nodup (mems : List (Nat × String)) (uid0 vuid : Nat)
    (hmem : mems.Nodup) (hlive : ∀ m ∈ mems, ¬(m.1 == vuid) = true) :
    (mems.map (fun m => if m.1 == uid0 then (vuid, m.2) else m)).Nodup := by
  apply List.Nodup.map_on _ hmem
  intro x hx y hy hxy
  by_cases h1 : (x.1 == uid0) = true <;> by_cases h2 : (y.1 == uid0) = true
  · rw [if_pos h1, if_pos h2] at hxy
    have hx2 : x.2 = y.2 := (Prod.ext_iff.mp hxy).2
    rw [beq_iff_eq] at h1 h2
    have hx1 : x.1 = y.1 := by rw [h1, h2]
    calc x = (x.1, x.2) := rfl
    _ = (y.1, y.2) := by rw [hx1, hx2]
    _ = y := rfl
  · exfalso
    rw [if_pos h1, if_neg h2] at hxy
    apply hlive y hy
    rw [beq_iff_eq]
    exact congrArg Prod.fst hxy.symm
  · exfalso
    rw [if_neg h1, if_pos h2] at hxy
    apply hlive x hx
    rw [beq_iff_eq]
    exact congrArg Prod.fst hxy
  · rw [if_neg h1, if_neg h2] at hxy
    exact hxy

/-- NICK on an admissible event never raises and preserves the invariants: the rename in place branch keeps identifiers and memberships, the reuse branch reassigns memberships injectively onto the stale identifier and deactivates the old record. -/
theorem handle_nick_spec (st : ModelState) (p newNick oldNick un hst : String)
    (hp : parse_identity p = .ok (oldNick, un, hst)) (hinv : Inv st)
    (hadm : admissible st (.nick p newNick) = true) :
    ∃ st2, handle_nick st p newNick = .ok st2 ∧ Inv st2 := by
  unfold handle_nick
  rw [hp]
  dsimp only
  unfold admissible at hadm
  dsimp only at hadm
  rw [hp] at hadm
  dsimp only at hadm
  obtain ⟨hnodup, hlt, huniq, hmem⟩ := resolveUser_inv st oldNick hinv
  cases hf : (resolveUser st oldNick).2.users.find?
      (fun v => v.current && v.nick == newNick && v.uid != (resolveUser st oldNick).1.uid) with
  | none =>
    dsimp only
    refine ⟨_, rfl, ?_⟩
    have hnone := List.find?_eq_none.mp hf
    have h3 := rename_inv (resolveUser st oldNick).2.users _ (resolveUser st oldNick).2.nextId
      (resolveUser st oldNick).1.uid newNick rfl hnodup hlt huniq hnone
    exact ⟨h3.1, h3.2.1, h3.2.2, hmem⟩
  | some v =>
    rw [hf] at hadm
    dsimp only at hadm ⊢
    have hlive : hasLiveMembership (resolveUser st oldNick).2 v.uid = false := by
      simpa using hadm
    rw [if_neg (by simp [hlive])]
    refine ⟨_, rfl, ?_⟩
    have h3 := deactivate_inv (resolveUser st oldNick).2.users _ (resolveUser st oldNick).2.nextId
      (resolveUser st oldNick).1.uid rfl hnodup hlt huniq
    have hliveAll : ∀ m ∈ (resolveUser st oldNick).2.memberships, ¬(m.1 == v.uid) = true := by
      intro m hm hmv
      have hany : hasLiveMembership (resolveUser st oldNick).2 v.uid = true := by
        unfold hasLiveMembership
        exact List.any_eq_true.mpr ⟨m, hm, hmv⟩
      rw [hany] at hlive
      cases hlive
    exact ⟨h3.1, h3.2.1, h3.2.2, reassign_nodup _ _ _ hmem hliveAll⟩

/-- One admissible event applied to an invariant state succeeds and preserves the invariants. -/
theorem applyEvent_admissible (st : ModelState) (e : MEvent) (hinv : Inv st)
    (ha : admissible st e = true) :
    ∃ st2, applyEvent st e = .ok st2 ∧ Inv st2 := by
  cases e with
  | join p c =>
    unfold admissible at ha
    dsimp only at ha
    unfold wfIdent at ha
    cases hp : parse_identity p with
    | error err => rw [hp] at ha; simp [Except.toOption] at ha
    | ok t =>
      obtain ⟨nick, un, hh⟩ := t
      exact handle_join_spec st p c nick un hh hp hinv
  | part p c =>
    unfold admissible at ha
    dsimp only at ha
    unfold wfIdent at ha
    cases hp : parse_identity p with
    | error err => rw [hp] at ha; simp [Except.toOption] at ha
    | ok t =>
      obtain ⟨nick, un, hh⟩ := t
      exact handle_part_spec st p c nick un hh hp hinv
  | nick p n =>
    cases hp : parse_identity p with
    | error err =>
      exfalso
      unfold admissible at ha
      dsimp only at ha
      rw [hp] at ha
      dsimp only at ha
      cases ha
    | ok t =>
      obtain ⟨oldNick, un, hh⟩ := t
      exact handle_nick_spec st p n oldNick un hh hp hinv ha

/-- An admissible run from an invariant state succeeds and ends in an invariant state. -/
theorem runEvents_admissible : ∀ (evs : List MEvent) (st : ModelState), Inv st →
    admissibleRun st evs = true → ∃ st2, runEvents st evs = .ok st2 ∧ Inv st2 := by
  intro evs
  induction evs with
  | nil =>
    intro st hinv _
    exact ⟨st, rfl, hinv⟩
  | cons e es ih =>
    intro st hinv hrun
    unfold admissibleRun at hrun
    rw [Bool.and_eq_true] at hrun
    obtain ⟨ha, hrest⟩ := hrun
    obtain ⟨st2, happ, hinv2⟩ := applyEvent_admissible st e hinv ha
    rw [happ] at hrest
    dsimp only at hrest
    obtain ⟨st3, hrun3, hinv3⟩ := ih st2 hinv2 hrest
    refine ⟨st3, ?_, hinv3⟩
    unfold runEvents
    rw [happ]
    dsimp only
    exact hrun3

/-- Lookup by nick with a uniquely determined identifier. -/
theorem find?_uid (us : List UserRec) (nn : String) (uidv : Nat)
    (hex : ∃ x ∈ us, (x.current && x.nick == nn) = true ∧ x.uid = uidv)
    (hall : ∀ x ∈ us, (x.current && x.nick == nn) = true → x.uid = uidv) :
    ((us.find? (fun u => u.current && u.nick == nn)).map UserRec.uid) = some uidv := by
  cases hg : us.find? (fun u => u.current && u.nick == nn) with
  | none =>
    exfalso
    obtain ⟨x, hx, hpx, _⟩ := hex
    exact (List.find?_eq_none.mp hg x hx) hpx
  | some w =>
    have hpw := @List.find?_some UserRec (fun u => u.current && u.nick == nn) w us hg
    have hw := hall w (List.mem_of_find?_eq_some hg) (by simpa using hpw)
    simp [hw]

/-- After a successful NICK change, looking up the new nick returns the identifier of the record that previously held that nick. -/
theorem handle_nick_continuity (st : ModelState) (p newNick : String) (v : UserRec)
    (st2 : ModelState) (hinv : Inv st)
    (hv : getUserByNick st newNick = some v)
    (hn : handle_nick st p newNick = .ok st2) :
    (getUserByNick st2 newNick).map UserRec.uid = some v.uid := by
  cases hp : parse_identity p with
  | error err =>
    exfalso
    unfold handle_nick at hn
    rw [hp] at hn
    cases hn
  | ok t =>
    obtain ⟨oldNick, un, hh⟩ := t
    unfold handle_nick at hn
    rw [hp] at hn
    dsimp only at hn
    obtain ⟨hnodup, hlt, huniq, hmem⟩ := resolveUser_inv st oldNick hinv
    have hvmem : v ∈ st.users := List.mem_of_find?_eq_some hv
    have hvp := @List.find?_some UserRec (fun u => u.current && u.nick == newNick) v st.users hv
    simp only [Bool.and_eq_true, beq_iff_eq] at hvp
    have hvmem2 : v ∈ (resolveUser st oldNick).2.users := resolveUser_users_sub st oldNick v hvmem
    cases hf : (resolveUser st oldNick).2.users.find?
        (fun w => w.current && w.nick == newNick && w.uid != (resolveUser st oldNick).1.uid) with
    | none =>
      rw [hf] at hn
      dsimp only at hn
      have hvr : v.uid = (resolveUser st oldNick).1.uid := by
        have hnp := List.find?_eq_none.mp hf v hvmem2
        simp only [Bool.and_eq_true, beq_iff_eq, bne_iff_ne, not_and, ne_eq, not_not] at hnp
        exact hnp hvp
      injection hn with hn2
      subst hn2
      unfold getUserByNick
      dsimp only
      apply find?_uid
      · refine ⟨(fun w => if w.uid == (resolveUser st oldNick).1.uid
            then { w with nick := newNick } else w) v,
          List.mem_map_of_mem _ hvmem2, ?_, ?_⟩
        · dsimp only
          rw [if_pos (by simp [hvr])]
          simp [hvp.1]
        · dsimp only
          rw [if_pos (by simp [hvr])]
      · intro x hx hpx
        rcases List.mem_map.mp hx with ⟨a, ha2, rfl⟩
        by_cases hau : (a.uid == (resolveUser st oldNick).1.uid) = true
        · rw [if_pos hau]
          rw [beq_iff_eq] at hau
          rw [hvr]
          exact hau
        · exfalso
          rw [if_neg hau] at hpx
          simp only [Bool.and_eq_true, beq_iff_eq] at hpx
          have hnp := List.find?_eq_none.mp hf a ha2
          apply hnp
          have hane : (a.uid != (resolveUser st oldNick).1.uid) = true := by
            simp only [bne_iff_ne]
            intro he
            exact hau (by simp [he])
          simp [hpx.1, hpx.2, hane]
    | some w =>
      rw [hf] at hn
      dsimp only at hn
      have hwmem : w ∈ (resolveUser st oldNick).2.users := List.mem_of_find?_eq_some hf
      have hwp := @List.find?_some UserRec
        (fun x => x.current && x.nick == newNick && x.uid != (resolveUser st oldNick).1.uid)
        w (resolveUser st oldNick).2.users hf
      simp only [Bool.and_eq_true, beq_iff_eq, bne_iff_ne] at hwp
      have hvw : v = w := huniq v hvmem2 w hwmem hvp.1 hwp.1.1 (by rw [hvp.2, hwp.1.2])
      have hvne : v.uid ≠ (resolveUser st oldNick).1.uid := by
        rw [hvw]; exact hwp.2
      by_cases hlive : hasLiveMembership (resolveUser st oldNick).2 w.uid = true
      · rw [if_pos hlive] at hn; cases hn
      · rw [if_neg hlive] at hn
        injection hn with hn2
        subst hn2
        unfold getUserByNick
        dsimp only
        apply find?_uid
        · refine ⟨(fun x => if x.uid == (resolveUser st oldNick).1.uid
              then { x with current := false } else x) v,
            List.mem_map_of_mem _ hvmem2, ?_, ?_⟩
          · dsimp only
            rw [if_neg (by simp [hvne])]
            simp [hvp.1, hvp.2]
          · dsimp only
            rw [if_neg (by simp [hvne])]
        · intro x hx hpx
          rcases List.mem_map.mp hx with ⟨a, ha2, rfl⟩
          by_cases hau : (a.uid == (resolveUser st oldNick).1.uid) = true
          · exfalso
            rw [if_pos hau] at hpx
            simp at hpx
          · rw [if_neg hau] at hpx ⊢
            simp only [Bool.and_eq_true, beq_iff_eq] at hpx
            have hav : a = v := huniq a ha2 v hvmem2 hpx.1 hvp.1 (by rw [hpx.2, hvp.2])
            rw [hav]

/-- State of the session model after join of n, part of n and join under m, as in the regression test. -/
def preNickState : ModelState := ⟨[⟨0, ("n"), true⟩, ⟨1, ("m"), true⟩], [(1, ("#c"))], 2⟩

/-- State after the nick reclaim: the stale identifier zero is reused, the record of m is deactivated, the membership row is reassigned. -/
def postNickState : ModelState := ⟨[⟨0, ("n"), true⟩, ⟨1, ("m"), false⟩], [(0, ("#c"))], 2⟩

/-- C1: over the session model embedded from the spec, since the model module is absent from src: every admissible interleaving of JOIN, PART and NICK events, that is one whose nick changes never target a nick currently resolvable to a live membership of a different user, runs with no handler raising, and the final state keeps the invariants, in particular membership rows never duplicate for the same user and buffer pair; and after any successful NICK change a lookup by the new nick returns the stable identifier of the record that previously held that nick. -/
theorem c1_session_model :
    (∀ (st : ModelState) (evs : List MEvent), Inv st → admissibleRun st evs = true →
        runsOk st evs = true ∧ Inv (finalState st evs)
          ∧ (finalState st evs).memberships.Nodup)
    ∧ (∀ (st : ModelState) (p newNick : String) (v : UserRec) (st2 : ModelState),
        Inv st → getUserByNick st newNick = some v → handle_nick st p newNick = .ok st2 →
        (getUserByNick st2 newNick).map UserRec.uid = some v.uid) := by
  constructor
  · intro st evs hinv hadm
    obtain ⟨st2, hrun, hinv2⟩ := runEvents_admissible evs st hinv hadm
    have h1 : runsOk st evs = true := by unfold runsOk; rw [hrun]; rfl
    have h2 : finalState st evs = st2 := by unfold finalState; rw [hrun]; rfl
    rw [h2]
    exact ⟨h1, hinv2, hinv2.2.2.2⟩
  · intro st p newNick v st2 hinv hv hn
    exact handle_nick_continuity st p newNick v st2 hinv hv hn

/-- C1 witness: the regression sequence of the tests runs without exception from the fresh state, keeps the invariants and duplicates no membership row; and the concrete reclaim step hands the nick back to the identifier that originally held it. -/
theorem c1_witness :
    (Inv initState ∧ admissibleRun initState testSeq = true
      ∧ runsOk initState testSeq = true ∧ Inv (finalState initState testSeq)
      ∧ (finalState initState testSeq).memberships.Nodup)
    ∧ (Inv preNickState ∧ getUserByNick preNickState ("n") = some ⟨0, ("n"), true⟩
      ∧ handle_nick preNickState ("m!~u@h") ("n") = .ok postNickState
      ∧ (getUserByNick postNickState ("n")).map UserRec.uid = some 0) :=
  ⟨⟨by decide, by decide,
    (c1_session_model.1 initState testSeq (by decide) (by decide)).1,
    (c1_session_model.1 initState testSeq (by decide) (by decide)).2.1,
    (c1_session_model.1 initState testSeq (by decide) (by decide)).2.2⟩,
   ⟨by decide, by decide, by decide,
    c1_session_model.2 preNickState ("m!~u@h") ("n") ⟨0, ("n"), true⟩ postNickState
      (by decide) (by decide) (by decide)⟩⟩

/-- C9 witness: a two line payload produces two newline free PRIVMSG frames, and the first frame is written with exactly one appended newline. -/
theorem c9_witness :
    ('\n') ∉ (("#chan") : String).data
    ∧ send_message ("#chan") ("hello\nthere") = [("PRIVMSG #chan :hello"), ("PRIVMSG #chan :there")]
    ∧ ('\n') ∉ (("PRIVMSG #chan :hello") : String).data
    ∧ write_function ("PRIVMSG #chan :hello") = .ok (("PRIVMSG #chan :hello") ++ ("\n")) :=
  ⟨by decide, by decide,
   (c9_split_and_newline.1 ("#chan") ("hello\nthere") (by decide) ("PRIVMSG #chan :hello")
      (by decide)).1,
   (c9_split_and_newline.1 ("#chan") ("hello\nthere") (by decide) ("PRIVMSG #chan :hello")
      (by decide)).2⟩

end Pircel
